import Mathlib

/-!
# Verification of the fungible-token ledger core (Catch-labs/nft-market, contracts/ft)

Shallow embedding of the ledger core: the `Contract` state (owner, account map,
total supply) and its mutation primitives `internal_deposit`, `internal_withdraw`,
`internal_transfer` (src/contracts/ft/src/internal.rs) and `mint`,
`ft_transfer_player_reward`, `new` (src/contracts/ft/src/lib.rs).

Modelling decisions:
* `Balance` (Rust `u128`) is `Nat`; the `checked_add`/`checked_sub` guards are
  explicit comparisons against `U128_MAX`.
* `env::panic` aborts the whole invocation and the pre-call state is kept by the
  runtime, so each operation returns `Except Err Contract`; `commit` is the
  runtime's view (an error keeps the old state).
* `LookupMap<AccountId, Balance>` is an association list with first-occurrence
  lookup, in-place replacement on insert, and first-occurrence removal.
* The caller identity (`env::predecessor_account_id()`) is an explicit argument
  of the owner-gated operations.
-/

/-- Account identifiers (NEAR `AccountId`), opaque strings. -/
abbrev AccountId := String

/-- Balances: Rust `u128` modelled as `Nat` with explicit bound checks. -/
abbrev Balance := Nat

/-- Maximum value of the 128-bit unsigned balance type (`u128::MAX`). -/
def U128_MAX : Nat := 2 ^ 128 - 1

/-- The error kinds of the spec's taxonomy; each corresponds to one
`env::panic` message in the source (see `Err.message`). -/
inductive Err where
  | UnregisteredAccount
  | BalanceOverflow
  | InsufficientBalance
  | SupplyOverflow
  | InvalidAmount
  | SameAccount
  | NotOwner
deriving DecidableEq, Repr

/-- The panic message the source emits for each error kind. -/
def Err.message : Err → String
  | .UnregisteredAccount => "The account is not registered"
  | .BalanceOverflow => "Balance overflow"
  | .InsufficientBalance => "The account doesn't have enough balance"
  | .SupplyOverflow => "Total Supply Overflow"
  | .InvalidAmount => "The amount should be a positive number"
  | .SameAccount => "Sender and receiver should be different"
  | .NotOwner => "It is a owner only method"

/-- The account map (`LookupMap<AccountId, Balance>`): an association list. -/
abbrev Accounts := List (AccountId × Balance)

/-- `LookupMap::get`: the value at the first entry with the given key. -/
def mapGet (m : Accounts) (k : AccountId) : Option Balance :=
  match m with
  | [] => none
  | (k', v) :: rest => if k' = k then some v else mapGet rest k

/-- `LookupMap::insert`: replace the first entry with the given key in place,
or append a fresh entry at the end. -/
def mapInsert (m : Accounts) (k : AccountId) (v : Balance) : Accounts :=
  match m with
  | [] => [(k, v)]
  | (k', v') :: rest => if k' = k then (k, v) :: rest else (k', v') :: mapInsert rest k v

/-- `LookupMap::remove`: drop the first entry with the given key. -/
def mapRemove (m : Accounts) (k : AccountId) : Accounts :=
  match m with
  | [] => []
  | (k', v') :: rest => if k' = k then rest else (k', v') :: mapRemove rest k

/-- The sum of all balances stored in the account map. -/
def sumBal : Accounts → Nat
  | [] => 0
  | (_, v) :: rest => v + sumBal rest

/-- The ledger state of the contract (`struct Contract`, lib.rs).  The metadata
and storage-usage fields are omitted: no ledger operation reads or writes them. -/
structure Contract where
  owner_id : AccountId
  accounts : Accounts
  total_supply : Balance
deriving DecidableEq, Repr

/-- NEAR runtime semantics of a call result: on success the new state is
persisted, on `env::panic` the call aborts and the pre-call state is kept. -/
def commit (st : Contract) (r : Except Err Contract) : Contract :=
  match r with
  | .ok st' => st'
  | .error _ => st

/-- `internal_deposit` (internal.rs, lines 27-38): registration guard on the
account, `checked_add` overflow guard, then insert the raised balance. -/
def Contract.internal_deposit (st : Contract) (account_id : AccountId)
    (amount : Balance) : Except Err Contract :=
  match mapGet st.accounts account_id with
  | none => .error .UnregisteredAccount
  | some balance =>
    if balance + amount ≤ U128_MAX then
      .ok { st with accounts := mapInsert st.accounts account_id (balance + amount) }
    else
      .error .BalanceOverflow

/-- `internal_withdraw` (internal.rs, lines 40-51): registration guard on the
account, `checked_sub` underflow guard, then insert the lowered balance. -/
def Contract.internal_withdraw (st : Contract) (account_id : AccountId)
    (amount : Balance) : Except Err Contract :=
  match mapGet st.accounts account_id with
  | none => .error .UnregisteredAccount
  | some balance =>
    if amount ≤ balance then
      .ok { st with accounts := mapInsert st.accounts account_id (balance - amount) }
    else
      .error .InsufficientBalance

/-- `internal_transfer` (internal.rs, lines 53-69): distinct-parties guard,
positive-amount guard, then withdraw from the sender and deposit to the
receiver.  The memo is unused by the ledger. -/
def Contract.internal_transfer (st : Contract) (sender_id receiver_id : AccountId)
    (amount : Balance) (memo : Option String) : Except Err Contract :=
  if sender_id = receiver_id then .error .SameAccount
  else if amount = 0 then .error .InvalidAmount
  else
    match st.internal_withdraw sender_id amount with
    | .error e => .error e
    | .ok st1 => st1.internal_deposit receiver_id amount

/-- `mint` (lib.rs, lines 107-122): ownership guard on the caller,
`checked_add` on the total supply, commit the new total supply, then deposit
the amount to the owner. -/
def Contract.mint (st : Contract) (caller : AccountId) (amount : Balance) :
    Except Err Contract :=
  if caller = st.owner_id then
    if st.total_supply + amount ≤ U128_MAX then
      Contract.internal_deposit
        { st with total_supply := st.total_supply + amount } st.owner_id amount
    else
      .error .SupplyOverflow
  else
    .error .NotOwner

/-- `ft_transfer_player_reward` (lib.rs, lines 124-142): ownership guard on the
caller, positive-amount guard, then withdraw from the owner and deposit to the
player.  There is no distinct-parties guard.  `feat` is unused by the ledger. -/
def Contract.ft_transfer_player_reward (st : Contract) (caller : AccountId)
    (player_id : AccountId) (amount : Balance) (feat : Option String) :
    Except Err Contract :=
  if caller = st.owner_id then
    if amount = 0 then .error .InvalidAmount
    else
      match st.internal_withdraw st.owner_id amount with
      | .error e => .error e
      | .ok st1 => st1.internal_deposit player_id amount
  else
    .error .NotOwner

/-- The 64-character probe account the constructor uses to measure storage. -/
def tmp_account_id : AccountId := String.mk (List.replicate 64 'a')

/-- `new` (lib.rs, lines 52-103), restricted to the ledger fields: insert and
remove the storage-measurement probe account, then give the owner the full
initial total supply.  Metadata parsing and storage accounting are omitted:
they do not touch the ledger state. -/
def Contract.new (owner_id : AccountId) (total_supply : Balance) : Contract :=
  let accounts0 : Accounts := []
  let accounts1 := mapInsert accounts0 tmp_account_id 0
  let accounts2 := mapRemove accounts1 tmp_account_id
  let accounts3 := mapInsert accounts2 owner_id total_supply
  { owner_id := owner_id, accounts := accounts3, total_supply := total_supply }

example : Contract.new "dex" 100 =
    { owner_id := "dex", accounts := [("dex", 100)], total_supply := 100 } := by
  decide

example :
    (Contract.new "dex" 100).mint "dex" 5 =
      .ok { owner_id := "dex", accounts := [("dex", 105)], total_supply := 105 } := by
  rfl

example :
    (Contract.new "dex" 100).mint "alice" 5 = .error .NotOwner := by
  rfl

example :
    (Contract.new "dex" 100).internal_transfer "dex" "bob" 5 none =
      .error .UnregisteredAccount := by
  rfl

/-! ## Map lemmas -/

theorem mapGet_mapInsert (m : Accounts) (k : AccountId) (v : Balance) (c : AccountId) :
    mapGet (mapInsert m k v) c = if k = c then some v else mapGet m c := by
  induction m with
  | nil => simp [mapInsert, mapGet]
  | cons e rest ih =>
    obtain ⟨k', v'⟩ := e
    by_cases hk : k' = k
    · subst hk
      simp only [mapInsert, if_pos rfl, mapGet]
      by_cases hc : k' = c
      · subst hc; simp
      · simp [hc]
    · simp only [mapInsert, if_neg hk, mapGet]
      by_cases hc : k' = c
      · subst hc
        have hkc : ¬ k = k' := fun h => hk h.symm
        simp [hkc]
      · simp [hc, ih]

theorem sumBal_mapInsert_some (m : Accounts) (k : AccountId) (b v : Balance)
    (h : mapGet m k = some b) :
    sumBal (mapInsert m k v) + b = sumBal m + v := by
  induction m with
  | nil => simp [mapGet] at h
  | cons e rest ih =>
    obtain ⟨k', v'⟩ := e
    by_cases hk : k' = k
    · subst hk
      simp [mapGet] at h
      subst h
      simp [mapInsert, sumBal]
      omega
    · simp only [mapGet, if_neg hk] at h
      simp only [mapInsert, if_neg hk, sumBal]
      have := ih h
      omega

/-! ## Characterizations of the internal primitives -/

theorem internal_deposit_eq_ok (st : Contract) (a : AccountId) (amt : Balance)
    (st' : Contract) :
    st.internal_deposit a amt = .ok st' ↔
      ∃ b, mapGet st.accounts a = some b ∧ b + amt ≤ U128_MAX ∧
        st' = { st with accounts := mapInsert st.accounts a (b + amt) } := by
  cases h : mapGet st.accounts a with
  | none => simp [Contract.internal_deposit, h]
  | some b =>
    by_cases hle : b + amt ≤ U128_MAX
    · simp [Contract.internal_deposit, h, hle, eq_comm]
    · simp [Contract.internal_deposit, h, hle]

theorem internal_deposit_eq_error (st : Contract) (a : AccountId) (amt : Balance)
    (e : Err) :
    st.internal_deposit a amt = .error e ↔
      (mapGet st.accounts a = none ∧ e = .UnregisteredAccount) ∨
      (∃ b, mapGet st.accounts a = some b ∧ U128_MAX < b + amt ∧
        e = .BalanceOverflow) := by
  cases h : mapGet st.accounts a with
  | none => simp [Contract.internal_deposit, h, eq_comm]
  | some b =>
    by_cases hle : b + amt ≤ U128_MAX
    · simp [Contract.internal_deposit, h, hle]
    · simp [Contract.internal_deposit, h, hle, eq_comm]
      intro _
      exact Nat.not_le.mp hle

theorem internal_withdraw_eq_ok (st : Contract) (a : AccountId) (amt : Balance)
    (st' : Contract) :
    st.internal_withdraw a amt = .ok st' ↔
      ∃ b, mapGet st.accounts a = some b ∧ amt ≤ b ∧
        st' = { st with accounts := mapInsert st.accounts a (b - amt) } := by
  cases h : mapGet st.accounts a with
  | none => simp [Contract.internal_withdraw, h]
  | some b =>
    by_cases hle : amt ≤ b
    · simp [Contract.internal_withdraw, h, hle, eq_comm]
    · simp [Contract.internal_withdraw, h, hle]

theorem internal_withdraw_eq_error (st : Contract) (a : AccountId) (amt : Balance)
    (e : Err) :
    st.internal_withdraw a amt = .error e ↔
      (mapGet st.accounts a = none ∧ e = .UnregisteredAccount) ∨
      (∃ b, mapGet st.accounts a = some b ∧ b < amt ∧
        e = .InsufficientBalance) := by
  cases h : mapGet st.accounts a with
  | none => simp [Contract.internal_withdraw, h, eq_comm]
  | some b =>
    by_cases hle : amt ≤ b
    · simp [Contract.internal_withdraw, h, hle]
    · simp [Contract.internal_withdraw, h, hle, eq_comm]
      intro _
      exact Nat.not_le.mp hle

/-! ## Concrete states used by the witnesses -/

/-- Owner `"o"` registered with balance 10; supply 10. -/
def stO : Contract := { owner_id := "o", accounts := [("o", 10)], total_supply := 10 }

/-- Owner `"o"` (balance 10) and `"bob"` (balance 1); supply 11. -/
def stOB : Contract :=
  { owner_id := "o", accounts := [("o", 10), ("bob", 1)], total_supply := 11 }

/-! ## Claim theorems: guard behaviour and transfer correctness -/

/-- C7: `Transfer(A, A, a)` always fails with `SameAccount` — for every amount
(including zero and amounts above the balance) and regardless of registration —
and mutates no state. -/
theorem transfer_same_account (st : Contract) (A : AccountId) (a : Balance)
    (memo : Option String) :
    st.internal_transfer A A a memo = .error .SameAccount ∧
    commit st (st.internal_transfer A A a memo) = st := by
  have h : st.internal_transfer A A a memo = .error .SameAccount := by
    simp [Contract.internal_transfer]
  exact ⟨h, by rw [h]; rfl⟩

/-- C6: `Deposit` and `Withdraw` on an account with no entry in the ledger
store each fail with `UnregisteredAccount` and leave the whole state
unchanged. -/
theorem deposit_withdraw_unregistered (st : Contract) (A : AccountId)
    (a : Balance) (hA : mapGet st.accounts A = none) :
    st.internal_deposit A a = .error .UnregisteredAccount ∧
    st.internal_withdraw A a = .error .UnregisteredAccount ∧
    commit st (st.internal_deposit A a) = st ∧
    commit st (st.internal_withdraw A a) = st := by
  have h1 : st.internal_deposit A a = .error .UnregisteredAccount :=
    (internal_deposit_eq_error st A a _).mpr (.inl ⟨hA, rfl⟩)
  have h2 : st.internal_withdraw A a = .error .UnregisteredAccount :=
    (internal_withdraw_eq_error st A a _).mpr (.inl ⟨hA, rfl⟩)
  exact ⟨h1, h2, by rw [h1]; rfl, by rw [h2]; rfl⟩

/-- C6 witness: concrete evaluation on an account absent from the store. -/
theorem deposit_withdraw_unregistered_witness :
    stO.internal_deposit "bob" 3 = .error .UnregisteredAccount ∧
    stO.internal_withdraw "bob" 3 = .error .UnregisteredAccount := by
  have h := deposit_withdraw_unregistered stO "bob" 3 (by decide)
  exact ⟨h.1, h.2.1⟩

/-- C1: if the sender-side withdraw would succeed but the receiver-side deposit
would fail, the transfer aborts with exactly the deposit-side error and the
committed state is the pre-call state (zero partial effect). -/
theorem transfer_aborts_with_deposit_error (st : Contract) (A B : AccountId)
    (a : Balance) (memo : Option String) (e : Err)
    (hAB : A ≠ B) (ha : 0 < a)
    (hw : ∃ stw, st.internal_withdraw A a = .ok stw)
    (hd : st.internal_deposit B a = .error e) :
    st.internal_transfer A B a memo = .error e ∧
    commit st (st.internal_transfer A B a memo) = st := by
  obtain ⟨stw, hwk⟩ := hw
  rcases (internal_withdraw_eq_ok st A a stw).mp hwk with ⟨bA, _, _, rfl⟩
  have hBsame : mapGet (mapInsert st.accounts A (bA - a)) B = mapGet st.accounts B := by
    rw [mapGet_mapInsert, if_neg hAB]
  have hdep : ({ st with accounts := mapInsert st.accounts A (bA - a) } :
      Contract).internal_deposit B a = .error e := by
    rcases (internal_deposit_eq_error st B a e).mp hd with ⟨hn, he⟩ | ⟨b, hb, hlt, he⟩
    · exact (internal_deposit_eq_error _ B a e).mpr
        (.inl ⟨by simpa using hBsame.trans hn, he⟩)
    · exact (internal_deposit_eq_error _ B a e).mpr
        (.inr ⟨b, by simpa using hBsame.trans hb, hlt, he⟩)
  have ht : st.internal_transfer A B a memo = .error e := by
    unfold Contract.internal_transfer
    rw [if_neg hAB, if_neg (Nat.pos_iff_ne_zero.mp ha), hwk]
    exact hdep
  exact ⟨ht, by rw [ht]; rfl⟩

/-- C1 witness: sender registered with enough balance, receiver unregistered. -/
theorem transfer_aborts_with_deposit_error_witness :
    stO.internal_transfer "o" "bob" 5 none = .error .UnregisteredAccount := by
  have h := transfer_aborts_with_deposit_error stO "o" "bob" 5 none
    .UnregisteredAccount (by decide) (by decide)
    ⟨{ owner_id := "o", accounts := [("o", 5)], total_supply := 10 }, by rfl⟩ (by rfl)
  exact h.1

/-- C4: a transfer between distinct registered accounts, with a positive amount
covered by the sender and no receiver overflow, succeeds; the sender's balance
drops by exactly the amount, the receiver's rises by exactly the amount, the
total supply and owner are untouched, and every other account keeps its
balance. -/
theorem transfer_success_effects (st : Contract) (A B : AccountId) (a : Balance)
    (memo : Option String) (bA bB : Balance)
    (hA : mapGet st.accounts A = some bA) (hB : mapGet st.accounts B = some bB)
    (hAB : A ≠ B) (ha : 0 < a) (haA : a ≤ bA) (hov : bB + a ≤ U128_MAX) :
    ∃ st', st.internal_transfer A B a memo = .ok st' ∧
      mapGet st'.accounts A = some (bA - a) ∧
      mapGet st'.accounts B = some (bB + a) ∧
      st'.total_supply = st.total_supply ∧
      st'.owner_id = st.owner_id ∧
      ∀ C, C ≠ A → C ≠ B → mapGet st'.accounts C = mapGet st.accounts C := by
  have hwk : st.internal_withdraw A a =
      .ok { st with accounts := mapInsert st.accounts A (bA - a) } :=
    (internal_withdraw_eq_ok st A a _).mpr ⟨bA, hA, haA, rfl⟩
  have hB1 : mapGet (mapInsert st.accounts A (bA - a)) B = some bB := by
    rw [mapGet_mapInsert, if_neg hAB]; exact hB
  have hdep : ({ st with accounts := mapInsert st.accounts A (bA - a) } :
      Contract).internal_deposit B a =
      .ok { st with accounts := mapInsert (mapInsert st.accounts A (bA - a)) B (bB + a) } :=
    (internal_deposit_eq_ok _ B a _).mpr ⟨bB, by simpa using hB1, hov, rfl⟩
  refine ⟨{ st with accounts := mapInsert (mapInsert st.accounts A (bA - a)) B (bB + a) },
    ?_, ?_, ?_, rfl, rfl, ?_⟩
  · unfold Contract.internal_transfer
    rw [if_neg hAB, if_neg (Nat.pos_iff_ne_zero.mp ha), hwk]
    exact hdep
  · show mapGet (mapInsert (mapInsert st.accounts A (bA - a)) B (bB + a)) A = _
    rw [mapGet_mapInsert, if_neg (Ne.symm hAB), mapGet_mapInsert, if_pos rfl]
  · show mapGet (mapInsert (mapInsert st.accounts A (bA - a)) B (bB + a)) B = _
    rw [mapGet_mapInsert, if_pos rfl]
  · intro C hCA hCB
    show mapGet (mapInsert (mapInsert st.accounts A (bA - a)) B (bB + a)) C = _
    rw [mapGet_mapInsert, if_neg (Ne.symm hCB), mapGet_mapInsert, if_neg (Ne.symm hCA)]

/-- C4 witness: a concrete successful transfer between two registered
accounts. -/
theorem transfer_success_effects_witness :
    ∃ st', stOB.internal_transfer "o" "bob" 4 none = .ok st' ∧
      mapGet st'.accounts "o" = some 6 ∧
      mapGet st'.accounts "bob" = some 5 ∧
      st'.total_supply = 11 := by
  obtain ⟨st', h1, h2, h3, h4, -, -⟩ := transfer_success_effects stOB
    "o" "bob" 4 none 10 1 (by decide) (by decide) (by decide) (by decide)
    (by decide) (by decide)
  exact ⟨st', h1, h2, h3, h4⟩

/-! ## Claim theorems: mint, reward transfer, withdraw edge case -/

/-- C3: a successful `mint` by the owner raises the total supply by exactly the
amount and the owner's balance by exactly the amount; `mint` by a non-owner
fails with `NotOwner` and commits nothing. -/
theorem mint_owner_and_non_owner (st : Contract) (caller : AccountId) (a : Balance) :
    (∀ st', st.mint caller a = .ok st' →
      st'.total_supply = st.total_supply + a ∧
      ∃ b, mapGet st.accounts st.owner_id = some b ∧
        mapGet st'.accounts st.owner_id = some (b + a)) ∧
    (caller ≠ st.owner_id →
      st.mint caller a = .error .NotOwner ∧ commit st (st.mint caller a) = st) := by
  constructor
  · intro st' hok
    unfold Contract.mint at hok
    by_cases hc : caller = st.owner_id
    · rw [if_pos hc] at hok
      by_cases hts : st.total_supply + a ≤ U128_MAX
      · rw [if_pos hts] at hok
        rcases (internal_deposit_eq_ok _ _ _ _).mp hok with ⟨b, hb, hle, rfl⟩
        refine ⟨rfl, b, hb, ?_⟩
        show mapGet (mapInsert st.accounts st.owner_id (b + a)) st.owner_id = some (b + a)
        rw [mapGet_mapInsert, if_pos rfl]
      · rw [if_neg hts] at hok; cases hok
    · rw [if_neg hc] at hok; cases hok
  · intro hc
    have h : st.mint caller a = .error .NotOwner := by
      unfold Contract.mint; rw [if_neg hc]
    exact ⟨h, by rw [h]; rfl⟩

/-- The state after the witness mint below. -/
def stOminted : Contract := { owner_id := "o", accounts := [("o", 15)], total_supply := 15 }

/-- C3 witness: a concrete successful mint by the owner and a concrete rejected
mint by a non-owner. -/
theorem mint_owner_and_non_owner_witness :
    (stOminted.total_supply = stO.total_supply + 5 ∧
      ∃ b, mapGet stO.accounts stO.owner_id = some b ∧
        mapGet stOminted.accounts stO.owner_id = some (b + 5)) ∧
    stO.mint "alice" 5 = .error .NotOwner := by
  refine ⟨(mint_owner_and_non_owner stO "o" 5).1 stOminted (by rfl), ?_⟩
  exact ((mint_owner_and_non_owner stO "alice" 5).2 (by decide)).1

/-- Owner `"a"` registered with the maximum representable balance. -/
def stMax : Contract :=
  { owner_id := "a", accounts := [("a", U128_MAX)], total_supply := U128_MAX }

/-- C5 counterexample: for a registered account whose balance is `u128::MAX`,
the amount `b + 1` computed in the 128-bit type wraps to `0`, and the withdraw
then succeeds instead of failing with `InsufficientBalance`. -/
theorem withdraw_balance_plus_one_wraps_at_max :
    mapGet stMax.accounts "a" = some U128_MAX ∧
    (U128_MAX + 1) % 2 ^ 128 = 0 ∧
    stMax.internal_withdraw "a" ((U128_MAX + 1) % 2 ^ 128) = .ok stMax ∧
    stMax.internal_withdraw "a" ((U128_MAX + 1) % 2 ^ 128) ≠
      .error .InsufficientBalance := by
  refine ⟨rfl, by decide, by rfl, ?_⟩
  intro hcon
  rw [show stMax.internal_withdraw "a" ((U128_MAX + 1) % 2 ^ 128) = .ok stMax from rfl]
    at hcon
  cases hcon

/-- C5 (amended): for a registered account with balance `b` strictly below
`u128::MAX`, withdrawing `(b + 1) mod 2^128 = b + 1` fails with
`InsufficientBalance` and commits nothing; at `b = u128::MAX` the amount wraps
to zero and the withdraw succeeds, still leaving every balance unchanged. -/
theorem withdraw_balance_plus_one (st : Contract) (A : AccountId) (b : Balance)
    (hA : mapGet st.accounts A = some b) :
    (b < U128_MAX →
      st.internal_withdraw A ((b + 1) % 2 ^ 128) = .error .InsufficientBalance ∧
      commit st (st.internal_withdraw A ((b + 1) % 2 ^ 128)) = st) ∧
    (b = U128_MAX →
      ∃ st', st.internal_withdraw A ((b + 1) % 2 ^ 128) = .ok st' ∧
        ∀ C, mapGet st'.accounts C = mapGet st.accounts C) := by
  constructor
  · intro hlt
    have hp : (0:Nat) < 2 ^ 128 := by positivity
    have hup : U128_MAX < 2 ^ 128 := Nat.sub_lt hp Nat.one_pos
    have hmod : (b + 1) % 2 ^ 128 = b + 1 :=
      Nat.mod_eq_of_lt (lt_of_le_of_lt hlt hup)
    have h : st.internal_withdraw A ((b + 1) % 2 ^ 128) =
        .error .InsufficientBalance := by
      rw [hmod]
      exact (internal_withdraw_eq_error st A (b + 1) _).mpr
        (.inr ⟨b, hA, Nat.lt_succ_self b, rfl⟩)
    exact ⟨h, by rw [h]; rfl⟩
  · intro hmax
    subst hmax
    have hmod : (U128_MAX + 1) % 2 ^ 128 = 0 := by decide
    refine ⟨{ st with accounts := mapInsert st.accounts A (U128_MAX - 0) }, ?_, ?_⟩
    · rw [hmod]
      exact (internal_withdraw_eq_ok st A 0 _).mpr ⟨U128_MAX, hA, Nat.zero_le _, rfl⟩
    · intro C
      show mapGet (mapInsert st.accounts A (U128_MAX - 0)) C = _
      rw [mapGet_mapInsert]
      by_cases hC : A = C
      · subst hC
        rw [if_pos rfl, Nat.sub_zero]
        exact hA.symm
      · rw [if_neg hC]

/-- C5 witness: concrete registered account with balance 10; withdrawing
`(10 + 1) mod 2^128 = 11` fails with `InsufficientBalance`. -/
theorem withdraw_balance_plus_one_witness :
    stO.internal_withdraw "o" ((10 + 1) % 2 ^ 128) = .error .InsufficientBalance := by
  exact ((withdraw_balance_plus_one stO "o" 10 (by rfl)).1 (by decide)).1

/-- The scenario state of C8: owner with 1,000,000, `dex` with 0. -/
def st8 : Contract :=
  { owner_id := "owner", accounts := [("owner", 1000000), ("dex", 0)], total_supply := 1000000 }

/-- The state C8 predicts after the reward transfer. -/
def st8after : Contract :=
  { owner_id := "owner", accounts := [("owner", 999995), ("dex", 5)], total_supply := 1000000 }

/-- C8: in the scenario state, `RewardTransfer(dex, 5, "bonus")` by the owner
succeeds, yielding owner balance 999995, dex balance 5, and an unchanged total
supply of 1,000,000; the memo argument has no effect on the resulting ledger
state. -/
theorem reward_transfer_scenario :
    st8.ft_transfer_player_reward "owner" "dex" 5 (some "bonus") = .ok st8after ∧
    mapGet st8after.accounts "owner" = some 999995 ∧
    mapGet st8after.accounts "dex" = some 5 ∧
    st8after.total_supply = 1000000 ∧
    ∀ feat : Option String,
      st8.ft_transfer_player_reward "owner" "dex" 5 feat =
        st8.ft_transfer_player_reward "owner" "dex" 5 (some "bonus") := by
  exact ⟨rfl, rfl, rfl, rfl, fun _ => rfl⟩

/-- C10: `ft_transfer_player_reward` applies no distinct-parties guard: a
reward whose recipient is the owner itself, for a positive amount covered by
the owner's balance, succeeds (the owner is debited and then credited back)
and leaves the total supply and every account balance exactly unchanged. -/
theorem reward_transfer_to_owner_no_guard (st : Contract) (a b : Balance)
    (memo : Option String) (hb : mapGet st.accounts st.owner_id = some b)
    (ha : 0 < a) (hab : a ≤ b) (hmax : b ≤ U128_MAX) :
    ∃ st', st.ft_transfer_player_reward st.owner_id st.owner_id a memo = .ok st' ∧
      st'.total_supply = st.total_supply ∧
      st'.owner_id = st.owner_id ∧
      ∀ C, mapGet st'.accounts C = mapGet st.accounts C := by
  have hwk : st.internal_withdraw st.owner_id a =
      .ok { st with accounts := mapInsert st.accounts st.owner_id (b - a) } :=
    (internal_withdraw_eq_ok st _ a _).mpr ⟨b, hb, hab, rfl⟩
  have hget1 : mapGet (mapInsert st.accounts st.owner_id (b - a)) st.owner_id
      = some (b - a) := by
    rw [mapGet_mapInsert, if_pos rfl]
  have hle : b - a + a ≤ U128_MAX := by
    rw [Nat.sub_add_cancel hab]; exact hmax
  have hdep : ({ st with accounts := mapInsert st.accounts st.owner_id (b - a) } :
      Contract).internal_deposit st.owner_id a =
      .ok { st with accounts := mapInsert (mapInsert st.accounts st.owner_id (b - a)) st.owner_id (b - a + a) } :=
    (internal_deposit_eq_ok _ _ a _).mpr ⟨b - a, by simpa using hget1, hle, rfl⟩
  refine ⟨{ st with accounts := mapInsert (mapInsert st.accounts st.owner_id (b - a)) st.owner_id (b - a + a) },
    ?_, rfl, rfl, ?_⟩
  · unfold Contract.ft_transfer_player_reward
    rw [if_pos rfl, if_neg (Nat.pos_iff_ne_zero.mp ha), hwk]
    exact hdep
  · intro C
    show mapGet (mapInsert (mapInsert st.accounts st.owner_id (b - a)) st.owner_id (b - a + a)) C
      = mapGet st.accounts C
    rw [mapGet_mapInsert]
    by_cases hC : st.owner_id = C
    · subst hC
      rw [if_pos rfl, Nat.sub_add_cancel hab]
      exact hb.symm
    · rw [if_neg hC, mapGet_mapInsert, if_neg hC]

/-- C10 witness: the owner rewards itself 5 out of 10; the call succeeds and
the ledger is unchanged. -/
theorem reward_transfer_to_owner_no_guard_witness :
    ∃ st', stO.ft_transfer_player_reward stO.owner_id stO.owner_id 5 none = .ok st' ∧
      st'.total_supply = stO.total_supply ∧
      ∀ C, mapGet st'.accounts C = mapGet stO.accounts C := by
  obtain ⟨st', h1, h2, -, h4⟩ := reward_transfer_to_owner_no_guard stO 5 10 none
    (by rfl) (by decide) (by decide) (by decide)
  exact ⟨st', h1, h2, h4⟩

/-! ## Effects of successful operations -/

theorem internal_deposit_effects {st st' : Contract} {a : AccountId} {amt : Balance}
    (h : st.internal_deposit a amt = .ok st') :
    st'.owner_id = st.owner_id ∧ st'.total_supply = st.total_supply ∧
    sumBal st'.accounts = sumBal st.accounts + amt ∧
    (∀ k, (mapGet st.accounts k).isSome → (mapGet st'.accounts k).isSome) := by
  rcases (internal_deposit_eq_ok _ _ _ _).mp h with ⟨b, hb, _, rfl⟩
  refine ⟨rfl, rfl, ?_, ?_⟩
  · show sumBal (mapInsert st.accounts a (b + amt)) = sumBal st.accounts + amt
    have hs := sumBal_mapInsert_some st.accounts a b (b + amt) hb
    omega
  · intro k hk
    show (mapGet (mapInsert st.accounts a (b + amt)) k).isSome
    rw [mapGet_mapInsert]
    by_cases hak : a = k
    · rw [if_pos hak]; rfl
    · rw [if_neg hak]; exact hk

theorem internal_withdraw_effects {st st' : Contract} {a : AccountId} {amt : Balance}
    (h : st.internal_withdraw a amt = .ok st') :
    st'.owner_id = st.owner_id ∧ st'.total_supply = st.total_supply ∧
    sumBal st'.accounts + amt = sumBal st.accounts ∧
    (∀ k, (mapGet st.accounts k).isSome → (mapGet st'.accounts k).isSome) := by
  rcases (internal_withdraw_eq_ok _ _ _ _).mp h with ⟨b, hb, hab, rfl⟩
  refine ⟨rfl, rfl, ?_, ?_⟩
  · show sumBal (mapInsert st.accounts a (b - amt)) + amt = sumBal st.accounts
    have hs := sumBal_mapInsert_some st.accounts a b (b - amt) hb
    have hab2 : @LE.le Nat instLENat amt b := hab
    omega
  · intro k hk
    show (mapGet (mapInsert st.accounts a (b - amt)) k).isSome
    rw [mapGet_mapInsert]
    by_cases hak : a = k
    · rw [if_pos hak]; rfl
    · rw [if_neg hak]; exact hk

theorem internal_transfer_effects {st st' : Contract} {s r : AccountId}
    {amt : Balance} {memo : Option String}
    (h : st.internal_transfer s r amt memo = .ok st') :
    st'.owner_id = st.owner_id ∧ st'.total_supply = st.total_supply ∧
    sumBal st'.accounts = sumBal st.accounts ∧
    (∀ k, (mapGet st.accounts k).isSome → (mapGet st'.accounts k).isSome) := by
  unfold Contract.internal_transfer at h
  by_cases hsr : s = r
  · rw [if_pos hsr] at h; cases h
  · rw [if_neg hsr] at h
    by_cases hz : amt = 0
    · rw [if_pos hz] at h; cases h
    · rw [if_neg hz] at h
      cases hw : st.internal_withdraw s amt with
      | error e => rw [hw] at h; cases h
      | ok st1 =>
        rw [hw] at h
        have h' : st1.internal_deposit r amt = .ok st' := h
        obtain ⟨ho1, ht1, hs1, hk1⟩ := internal_withdraw_effects hw
        obtain ⟨ho2, ht2, hs2, hk2⟩ := internal_deposit_effects h'
        exact ⟨ho2.trans ho1, ht2.trans ht1, by omega,
          fun k hk => hk2 k (hk1 k hk)⟩

theorem mint_effects {st st' : Contract} {caller : AccountId} {amt : Balance}
    (h : st.mint caller amt = .ok st') :
    st'.owner_id = st.owner_id ∧ st'.total_supply = st.total_supply + amt ∧
    sumBal st'.accounts = sumBal st.accounts + amt ∧
    (∀ k, (mapGet st.accounts k).isSome → (mapGet st'.accounts k).isSome) := by
  unfold Contract.mint at h
  by_cases hc : caller = st.owner_id
  · rw [if_pos hc] at h
    by_cases hts : st.total_supply + amt ≤ U128_MAX
    · rw [if_pos hts] at h
      obtain ⟨ho, ht, hs, hk⟩ := internal_deposit_effects h
      exact ⟨ho, ht, hs, hk⟩
    · rw [if_neg hts] at h; cases h
  · rw [if_neg hc] at h; cases h

theorem reward_effects {st st' : Contract} {caller p : AccountId} {amt : Balance}
    {feat : Option String}
    (h : st.ft_transfer_player_reward caller p amt feat = .ok st') :
    st'.owner_id = st.owner_id ∧ st'.total_supply = st.total_supply ∧
    sumBal st'.accounts = sumBal st.accounts ∧
    (∀ k, (mapGet st.accounts k).isSome → (mapGet st'.accounts k).isSome) := by
  unfold Contract.ft_transfer_player_reward at h
  by_cases hc : caller = st.owner_id
  · rw [if_pos hc] at h
    by_cases hz : amt = 0
    · rw [if_pos hz] at h; cases h
    · rw [if_neg hz] at h
      cases hw : st.internal_withdraw st.owner_id amt with
      | error e => rw [hw] at h; cases h
      | ok st1 =>
        rw [hw] at h
        have h' : st1.internal_deposit p amt = .ok st' := h
        obtain ⟨ho1, ht1, hs1, hk1⟩ := internal_withdraw_effects hw
        obtain ⟨ho2, ht2, hs2, hk2⟩ := internal_deposit_effects h'
        exact ⟨ho2.trans ho1, ht2.trans ht1, by omega,
          fun k hk => hk2 k (hk1 k hk)⟩
  · rw [if_neg hc] at h; cases h

/-! ## Reachable states -/

/-- One successful core ledger operation, any of the five of the spec
(including a bare deposit or withdraw leg, as the spec lists Deposit and
Withdraw among the exposed operations). -/
inductive Step : Contract → Contract → Prop
  | deposit (st st' : Contract) (a : AccountId) (amt : Balance) :
      st.internal_deposit a amt = .ok st' → Step st st'
  | withdraw (st st' : Contract) (a : AccountId) (amt : Balance) :
      st.internal_withdraw a amt = .ok st' → Step st st'
  | transfer (st st' : Contract) (s r : AccountId) (amt : Balance)
      (memo : Option String) :
      st.internal_transfer s r amt memo = .ok st' → Step st st'
  | mint (st st' : Contract) (caller : AccountId) (amt : Balance) :
      st.mint caller amt = .ok st' → Step st st'
  | reward (st st' : Contract) (caller p : AccountId) (amt : Balance)
      (feat : Option String) :
      st.ft_transfer_player_reward caller p amt feat = .ok st' → Step st st'

/-- States reachable from construction via successful core operations. -/
inductive Reachable (owner : AccountId) (supply : Balance) : Contract → Prop
  | init : Reachable owner supply (Contract.new owner supply)
  | step {st st' : Contract} : Reachable owner supply st → Step st st' →
      Reachable owner supply st'

/-- One successful Transfer, Mint, or RewardTransfer (the conservation-safe
subset of the operations: no bare deposit or withdraw leg). -/
inductive StepTMR : Contract → Contract → Prop
  | transfer (st st' : Contract) (s r : AccountId) (amt : Balance)
      (memo : Option String) :
      st.internal_transfer s r amt memo = .ok st' → StepTMR st st'
  | mint (st st' : Contract) (caller : AccountId) (amt : Balance) :
      st.mint caller amt = .ok st' → StepTMR st st'
  | reward (st st' : Contract) (caller p : AccountId) (amt : Balance)
      (feat : Option String) :
      st.ft_transfer_player_reward caller p amt feat = .ok st' → StepTMR st st'

/-- States reachable from construction via successful Transfer, Mint, and
RewardTransfer operations only. -/
inductive ReachableTMR (owner : AccountId) (supply : Balance) : Contract → Prop
  | init : ReachableTMR owner supply (Contract.new owner supply)
  | step {st st' : Contract} : ReachableTMR owner supply st → StepTMR st st' →
      ReachableTMR owner supply st'

theorem step_preserves_owner {st st' : Contract} (h : Step st st') :
    st'.owner_id = st.owner_id := by
  cases h with
  | deposit a amt hd => exact (internal_deposit_effects hd).1
  | withdraw a amt hw => exact (internal_withdraw_effects hw).1
  | transfer s r amt memo ht => exact (internal_transfer_effects ht).1
  | mint caller amt hm => exact (mint_effects hm).1
  | reward caller p amt feat hr => exact (reward_effects hr).1

theorem step_preserves_keys {st st' : Contract} (h : Step st st') :
    ∀ k, (mapGet st.accounts k).isSome → (mapGet st'.accounts k).isSome := by
  cases h with
  | deposit a amt hd => exact (internal_deposit_effects hd).2.2.2
  | withdraw a amt hw => exact (internal_withdraw_effects hw).2.2.2
  | transfer s r amt memo ht => exact (internal_transfer_effects ht).2.2.2
  | mint caller amt hm => exact (mint_effects hm).2.2.2
  | reward caller p amt feat hr => exact (reward_effects hr).2.2.2

/-! ## Claim theorems: conservation and owner registration -/

/-- The state that refutes C2: one successful bare deposit from construction. -/
def stC2 : Contract := { owner_id := "owner", accounts := [("owner", 105)], total_supply := 100 }

/-- C2 counterexample: `stC2` is reachable from construction with supply 100 by
one successful bare `Deposit` of 5 to the owner — an operation the claim's
reachability set includes — yet its total supply 100 differs from its balance
sum 105, so the claimed invariant fails on that operation set. -/
theorem conservation_fails_under_bare_deposit :
    Reachable "owner" 100 stC2 ∧ stC2.total_supply ≠ sumBal stC2.accounts := by
  constructor
  · exact Reachable.step Reachable.init
      (Step.deposit (Contract.new "owner" 100) stC2 "owner" 5 (by rfl))
  · decide

/-- C2 (amended): in every state reachable from construction via successful
Transfer, Mint, and RewardTransfer operations — bare Deposit and Withdraw legs
excluded, since a lone successful Deposit already breaks the equality — the
total supply equals the sum of all stored balances, and every further such
operation preserves the equality. -/
theorem conservation_invariant (owner : AccountId) (supply : Balance)
    (st : Contract) (h : ReachableTMR owner supply st) :
    st.total_supply = sumBal st.accounts ∧
    ∀ st2, StepTMR st st2 → st2.total_supply = sumBal st2.accounts := by
  have main : st.total_supply = sumBal st.accounts := by
    induction h with
    | init =>
      show supply = sumBal (Contract.new owner supply).accounts
      simp [Contract.new, mapInsert, mapRemove, sumBal]
    | step hr hs ih =>
      cases hs with
      | transfer s r amt memo ht =>
        obtain ⟨-, h1, h2, -⟩ := internal_transfer_effects ht
        rw [h1, h2, ih]
      | mint caller amt hm =>
        obtain ⟨-, h1, h2, -⟩ := mint_effects hm
        rw [h1, h2, ih]
      | reward caller p amt feat hrw =>
        obtain ⟨-, h1, h2, -⟩ := reward_effects hrw
        rw [h1, h2, ih]
  refine ⟨main, ?_⟩
  intro st2 hs2
  cases hs2 with
  | transfer s r amt memo ht =>
    obtain ⟨-, h1, h2, -⟩ := internal_transfer_effects ht
    rw [h1, h2, main]
  | mint caller amt hm =>
    obtain ⟨-, h1, h2, -⟩ := mint_effects hm
    rw [h1, h2, main]
  | reward caller p amt feat hrw =>
    obtain ⟨-, h1, h2, -⟩ := reward_effects hrw
    rw [h1, h2, main]

/-- C2 witness: the conservation equality evaluated at the constructed state. -/
theorem conservation_invariant_witness :
    stO.total_supply = sumBal stO.accounts := by
  exact (conservation_invariant "o" 10 stO (by exact ReachableTMR.init)).1

/-- C9: in every reachable state the owner identity is unchanged and has an
entry in the account map (construction inserts it and no operation removes
entries — deposit and withdraw only insert), so `mint` can never fail its
registration guard and the owner-side debit of `ft_transfer_player_reward`
can never fail its registration guard. -/
theorem owner_always_registered (owner : AccountId) (supply : Balance)
    (st : Contract) (h : Reachable owner supply st) :
    st.owner_id = owner ∧
    (mapGet st.accounts st.owner_id).isSome ∧
    (∀ st2, Step st st2 → ∀ k, (mapGet st.accounts k).isSome →
      (mapGet st2.accounts k).isSome) ∧
    (∀ caller amt, st.mint caller amt ≠ .error .UnregisteredAccount) ∧
    (∀ amt, st.internal_withdraw st.owner_id amt ≠ .error .UnregisteredAccount) := by
  have main : st.owner_id = owner ∧ (mapGet st.accounts st.owner_id).isSome := by
    induction h with
    | init =>
      refine ⟨rfl, ?_⟩
      show (mapGet (Contract.new owner supply).accounts owner).isSome
      simp [Contract.new, mapInsert, mapRemove, mapGet]
    | step hr hs ih =>
      refine ⟨(step_preserves_owner hs).trans ih.1, ?_⟩
      rw [step_preserves_owner hs]
      exact step_preserves_keys hs _ ih.2
  refine ⟨main.1, main.2, fun st2 hs2 => step_preserves_keys hs2, ?_, ?_⟩
  · intro caller amt hcon
    unfold Contract.mint at hcon
    by_cases hc : caller = st.owner_id
    · rw [if_pos hc] at hcon
      by_cases hts : st.total_supply + amt ≤ U128_MAX
      · rw [if_pos hts] at hcon
        rcases (internal_deposit_eq_error _ _ _ _).mp hcon with ⟨hn, -⟩ | ⟨b, -, -, he⟩
        · have hn' : mapGet st.accounts st.owner_id = none := hn
          have h2 := main.2
          rw [hn'] at h2
          simp at h2
        · cases he
      · rw [if_neg hts] at hcon; simp at hcon
    · rw [if_neg hc] at hcon; simp at hcon
  · intro amt hcon
    rcases (internal_withdraw_eq_error _ _ _ _).mp hcon with ⟨hn, -⟩ | ⟨b, -, -, he⟩
    · have h2 := main.2
      rw [hn] at h2
      simp at h2
    · cases he

/-- C9 witness: the owner of the constructed state is registered, and a
concrete mint never reports `UnregisteredAccount`. -/
theorem owner_always_registered_witness :
    (mapGet stO.accounts stO.owner_id).isSome ∧
    stO.mint "alice" 3 ≠ .error .UnregisteredAccount := by
  have h := owner_always_registered "o" 10 stO (by exact Reachable.init)
  exact ⟨h.2.1, h.2.2.2.1 "alice" 3⟩
